import Mathlib

/-!
Shallow embedding of `src/lambda_function.py`, a small AWS-Lambda script that
fits one Prophet time-series model per event on order data and publishes the
results, together with proofs of the behavioural properties claimed for it.

Modelling choices:
  * pandas DataFrames become lists of typed rows; monetary amounts are exact
    rationals (`Rat`); timestamps are integer day indices (`Int`), matching the
    day granularity at which the script works (`Timedelta.days`).
  * the Prophet library is an external collaborator: the model returned by
    `Prophet.fit` is an oracle parameter producing, per future row, the
    `(yhat, yhat_lower, yhat_upper)` triple.  The arguments the script passes
    to the `Prophet` constructor, the engineered training frame, the future
    frame built by `make_future_dataframe` and the shape of `predict`'s output
    are embedded faithfully.
  * S3 effects (image uploads, bucket cleanup, CSV write) become an explicit
    trace of `S3Op` values in execution order; `uuid.uuid4()` becomes a
    supply `uuids : Nat → String` consumed once per constructed `Forecast`.
  * Python exceptions (missing event row, invalid horizon given to
    `pd.date_range`) abort the run, embedded by `Option`.
-/

namespace LambdaFunc

/-- A row of the global `order_data` frame after `parser` and the rename
`created → ds`: columns `ds`, `total_gross`, `event_id`. -/
structure OrderRow where
  ds : Int
  total_gross : Rat
  event_id : Nat
  deriving Repr, DecidableEq

/-- A row of the global `event_data` frame (the columns the script reads). -/
structure EventRow where
  event_id : Nat
  name : String
  start_date : Int
  max_total_gross : Rat
  deriving Repr, DecidableEq

/-- `THRESHOLD_ORDERS = 50`: minimum amount of orders needed. -/
def THRESHOLD_ORDERS : Nat := 50

/-- `MAX_CAP = 1`: maximum capacity. -/
def MAX_CAP : Rat := 1

/-- `BUCKET_NAME = "fbprophet"`. -/
def BUCKET_NAME : String := "fbprophet"

/-- `FORECAST_IMG_BUCKET_NAME = "forecast-images"`. -/
def FORECAST_IMG_BUCKET_NAME : String := "forecast-images"

/-- A row of the engineered per-event frame `self.event_orders` after
`get_forecast` has added the `total_gross_cumsum`, `y` and `cap` columns. -/
structure TrainRow where
  ds : Int
  total_gross : Rat
  event_id : Nat
  total_gross_cumsum : Rat
  y : Rat
  cap : Rat
  deriving Repr, DecidableEq

/-- A row of the `future` frame: `make_future_dataframe` output plus the
re-applied `cap` column. -/
structure FutureRow where
  ds : Int
  cap : Rat
  deriving Repr, DecidableEq

/-- A row of the frame returned by `m.predict(future)` (the columns the
script uses). -/
structure PredRow where
  ds : Int
  yhat : Rat
  yhat_lower : Rat
  yhat_upper : Rat
  deriving Repr, DecidableEq

/-- A row of the accumulating output table `data_for_csv`. -/
structure ResultRow where
  event_id : Nat
  ds : Int
  yhat : Rat
  yhat_lower : Rat
  yhat_upper : Rat
  img_key : String
  deriving Repr, DecidableEq

/-- The arguments the script passes to the `Prophet` constructor. -/
structure ProphetArgs where
  growth : String
  yearly_seasonality : Bool
  deriving Repr, DecidableEq

/-- `Prophet(growth="linear", yearly_seasonality=False)` — line 113 of the
source.  Note: the growth mode is `"linear"`, not the capped mode
`"logistic"`, so Prophet ignores the `cap` columns the script sets. -/
def prophetArgs : ProphetArgs := ⟨"linear", false⟩

/-- The fitted model is external: given the constructor arguments, the
training frame and one row of the future frame, it yields the prediction
triple `(yhat, yhat_lower, yhat_upper)`. -/
abbrev ProphetModel := ProphetArgs → List TrainRow → FutureRow → Rat × Rat × Rat

/-- `m.predict(future)`: one output row per future row, in frame order. -/
def prophet_predict (model : ProphetModel) (args : ProphetArgs)
    (train : List TrainRow) (future : List FutureRow) : List PredRow :=
  future.map (fun fr =>
    let t := model args train fr
    ⟨fr.ds, t.1, t.2.1, t.2.2⟩)

/-- One S3 side effect performed by the script. -/
inductive S3Op where
  | deleteAllImages (bucket : String)
  | uploadImage (bucket : String) (objectName : String)
  | writeCsv (path : String)
  deriving Repr, DecidableEq

/-- Running cumulative sums with accumulator `acc`: embeds
`Series.cumsum()` applied after the partial sum `acc`. -/
def cumsumAux (acc : Rat) : List Rat → List Rat
  | [] => []
  | x :: xs => (acc + x) :: cumsumAux (acc + x) xs

/-- `Series.cumsum()`: the list of partial sums. -/
def cumsum (l : List Rat) : List Rat := cumsumAux 0 l

/-- Insert into an ascending duplicate-free list, keeping it so. -/
def insertSorted (x : Int) : List Int → List Int
  | [] => [x]
  | y :: ys =>
    if x < y then x :: y :: ys
    else if x = y then y :: ys
    else y :: insertSorted x ys

/-- `pd.Series(df.ds.unique()).sort_values()`: the sorted duplicate-free
list of history dates Prophet keeps from the frame it was fit on. -/
def sortedUnique (l : List Int) : List Int := l.foldr insertSorted []

/-- `Series.unique()` keeps the order of first appearance;
`seen` accumulates the values already emitted. -/
def uniqueAux (seen : List Nat) : List Nat → List Nat
  | [] => []
  | x :: xs => if x ∈ seen then uniqueAux seen xs else x :: uniqueAux (x :: seen) xs

/-- `order_data["event_id"].unique().tolist()`. -/
def uniqueFirst (l : List Nat) : List Nat := uniqueAux [] l

/-- `m.make_future_dataframe(periods=days_to_event)` with daily frequency:
the sorted distinct history dates followed by `periods` further days after
the last one.  `pd.date_range` raises when asked for `periods + 1 < 0`
samples, hence `none` there; for `periods ∈ \x7b-1, 0\x7d` it yields no
extra dates, matching `Int.toNat`. -/
def make_future_dataframe (history : List Int) (periods : Int) : Option (List Int) :=
  if periods < -1 then none
  else
    match (sortedUnique history).getLast? with
    | none => none
    | some last =>
      some (sortedUnique history ++
        (List.range periods.toNat).map (fun i => last + 1 + Int.ofNat i))

/-- The `Forecast` object of the script. -/
structure Forecast where
  event_id : Nat
  event_orders : List OrderRow
  event_name : String
  img_key : String
  deriving Repr, DecidableEq

/-- `Forecast.__init__`: stores the event id and order frame, looks the
event's `name` up in `event_data` (first matching row; `.values[0]` raises
when there is none) and draws one fresh image key. -/
def Forecast.init (event_data : List EventRow) (event_id : Nat)
    (event_orders : List OrderRow) (img_key : String) : Option Forecast :=
  match (event_data.filter (fun e => e.event_id == event_id)).head? with
  | none => none
  | some e => some ⟨event_id, event_orders, e.name, img_key⟩

/-- `get_percentage_total_gross_cumsum_max_total_gross`: cumulative sums of
the event's `total_gross` column, divided by the event's (fixed)
`max_total_gross` from `event_data` (first matching row). -/
def Forecast.get_percentage_total_gross_cumsum_max_total_gross
    (event_data : List EventRow) (f : Forecast) : Option (List Rat) :=
  match (event_data.filter (fun e => e.event_id == f.event_id)).head? with
  | none => none
  | some e =>
    some ((cumsum (f.event_orders.map (fun o => o.total_gross))).map
      (fun c => c / e.max_total_gross))

/-- `days_to_event_since_last_order`: the event's `start_date` minus the
`ds` of the last row of `event_orders` (`tail(1)`), in days. -/
def Forecast.days_to_event_since_last_order (event_data : List EventRow)
    (f : Forecast) : Option Int :=
  match (event_data.filter (fun e => e.event_id == f.event_id)).head?,
      f.event_orders.getLast? with
  | some e, some o => some (e.start_date - o.ds)
  | _, _ => none

/-- `upload_figures_to_s3`: puts the rendered chart into the image bucket
under `f"\x7bself.img_key\x7d.png"`. -/
def Forecast.upload_figures_to_s3 (f : Forecast) : S3Op :=
  S3Op.uploadImage FORECAST_IMG_BUCKET_NAME (f.img_key ++ ".png")

/-- Zip the order rows with the `total_gross_cumsum` and `y` columns and the
constant `cap` column into the engineered frame Prophet is fit on.  The
column assignments in the source write to the event's copied frame, which
the embedding renders by building these new rows. -/
def buildTrain : List OrderRow → List Rat → List Rat → List TrainRow
  | o :: os, c :: cs, y :: ys =>
    ⟨o.ds, o.total_gross, o.event_id, c, y, MAX_CAP⟩ :: buildTrain os cs ys
  | _, _, _ => []

/-- `get_forecast`: engineer `y` and `cap`, fit
`Prophet(growth="linear", yearly_seasonality=False)`, extend the time index
by `days_to_event_since_last_order`, re-apply `cap` to the future frame,
predict, and upload the chart.  Returns the forecast frame and the upload
effect. -/
def Forecast.get_forecast (event_data : List EventRow) (model : ProphetModel)
    (f : Forecast) : Option (List PredRow × S3Op) :=
  match f.get_percentage_total_gross_cumsum_max_total_gross event_data with
  | none => none
  | some ys =>
    let train := buildTrain f.event_orders
      (cumsum (f.event_orders.map (fun o => o.total_gross))) ys
    match f.days_to_event_since_last_order event_data with
    | none => none
    | some days_to_event =>
      match make_future_dataframe (train.map (fun t => t.ds)) days_to_event with
      | none => none
      | some future_ds =>
        let future := future_ds.map (fun d => (⟨d, MAX_CAP⟩ : FutureRow))
        let forecast := prophet_predict model prophetArgs train future
        some (forecast, f.upload_figures_to_s3)

/-- `new_row`: sets `event_id` and `img_key` on the forecast frame, selects
the six output columns and keeps `tail(1)` — the last row (none when the
frame is empty). -/
def Forecast.new_row (f : Forecast) (forecast_data : List PredRow) : List ResultRow :=
  match forecast_data.getLast? with
  | none => []
  | some p => [⟨f.event_id, p.ds, p.yhat, p.yhat_lower, p.yhat_upper, f.img_key⟩]

/-- The loop body of `make_event_forecasts` over the remaining event ids.
`od` is the global `order_data` (the per-event frame is `.copy()`-ed from
it, so nothing writes back to it), `acc` the accumulating `data_for_csv`,
`ups` the trace of uploads so far and `k` counts the `Forecast` objects
constructed so far (indexing the uuid supply). -/
def make_event_forecasts_loop (ed : List EventRow) (model : ProphetModel)
    (uuids : Nat → String) :
    List Nat → List OrderRow → List ResultRow → List S3Op → Nat →
      Option (List OrderRow × List ResultRow × List S3Op)
  | [], od, acc, ups, _ => some (od, acc, ups)
  | eid :: rest, od, acc, ups, k =>
    let event_orders := od.filter (fun o => o.event_id == eid)
    if event_orders.length < THRESHOLD_ORDERS then
      make_event_forecasts_loop ed model uuids rest od acc ups k
    else
      match Forecast.init ed eid event_orders (uuids k) with
      | none => none
      | some f =>
        match f.get_forecast ed model with
        | none => none
        | some fcop =>
          make_event_forecasts_loop ed model uuids rest od
            (acc ++ f.new_row fcop.1) (ups ++ [fcop.2]) (k + 1)

/-- `make_event_forecasts`: iterate the distinct event ids of `order_data`,
skip those with fewer than `THRESHOLD_ORDERS` order rows, and for the rest
forecast, upload a chart and append the last forecast row.  Returns the
final `order_data`, the output table and the upload trace. -/
def make_event_forecasts (od : List OrderRow) (ed : List EventRow)
    (model : ProphetModel) (uuids : Nat → String) :
    Option (List OrderRow × List ResultRow × List S3Op) :=
  make_event_forecasts_loop ed model uuids
    (uniqueFirst (od.map (fun o => o.event_id))) od [] [] 0

/-- `clean_bucket_with_figures`: delete every object of the image bucket. -/
def clean_bucket_with_figures : S3Op := S3Op.deleteAllImages FORECAST_IMG_BUCKET_NAME

/-- `upload_to_s3`: overwrite the single summary CSV. -/
def upload_to_s3 : S3Op := S3Op.writeCsv (BUCKET_NAME ++ "/forecast.csv")

/-- The dict returned by `lambda_handler`. -/
structure HandlerResponse where
  message : String
  deriving Repr, DecidableEq

/-- `lambda_handler`: clean the image bucket, make the forecasts (uploading
one chart per processed event), overwrite the summary CSV, return the
status message.  The trace lists the S3 effects in execution order. -/
def lambda_handler (od : List OrderRow) (ed : List EventRow)
    (model : ProphetModel) (uuids : Nat → String) :
    Option (List S3Op × HandlerResponse) :=
  match make_event_forecasts od ed model uuids with
  | none => none
  | some r =>
    some (clean_bucket_with_figures :: r.2.2 ++ [upload_to_s3], ⟨"Forecast uploaded"⟩)

/-- The per-event pipeline exactly as the orchestrator runs it for one
qualifying event id: filter its orders out of `order_data`, construct the
`Forecast` object and return the forecast frame. -/
def eventForecastOf (od : List OrderRow) (ed : List EventRow)
    (model : ProphetModel) (eid : Nat) (key : String) : Option (List PredRow) :=
  match Forecast.init ed eid (od.filter (fun o => o.event_id == eid)) key with
  | none => none
  | some f =>
    match f.get_forecast ed model with
    | none => none
    | some fcop => some fcop.1

/-- The distinct event ids whose order count reaches the threshold — the
events the orchestrator processes. -/
def qualifying_event_ids (od : List OrderRow) : List Nat :=
  (uniqueFirst (od.map (fun o => o.event_id))).filter
    (fun e => THRESHOLD_ORDERS ≤ (od.filter (fun o => o.event_id == e)).length)

/-- The loop of `make_event_forecasts` with the accumulators factored out:
per remaining event id, either skip or produce its result row(s) and upload.
Used to reason about the loop by refinement. -/
def runEvents (od : List OrderRow) (ed : List EventRow) (model : ProphetModel)
    (uuids : Nat → String) : List Nat → Nat → Option (List ResultRow × List S3Op)
  | [], _ => some ([], [])
  | eid :: rest, k =>
    let event_orders := od.filter (fun o => o.event_id == eid)
    if event_orders.length < THRESHOLD_ORDERS then
      runEvents od ed model uuids rest k
    else
      match Forecast.init ed eid event_orders (uuids k) with
      | none => none
      | some f =>
        match f.get_forecast ed model with
        | none => none
        | some fcop =>
          match runEvents od ed model uuids rest (k + 1) with
          | none => none
          | some p => some (f.new_row fcop.1 ++ p.1, fcop.2 :: p.2)

end LambdaFunc


namespace LambdaFunc

/-- Concrete order table: event 7 has 50 order rows (one per day, gross 1
each), event 8 a single row. -/
def exOd : List OrderRow :=
  (List.range 50).map (fun i => ⟨Int.ofNat i, 1, 7⟩) ++ [⟨0, 1, 8⟩]

/-- Concrete event table matching `exOd`. -/
def exEd : List EventRow := [⟨7, "Gala", 60, 100⟩, ⟨8, "Expo", 9, 5⟩]

/-- A concrete external model: predicts the capacity as the point value with
interval `[0, cap]`. -/
def exModel : ProphetModel := fun _ _ fr => (fr.cap, 0, fr.cap)

/-- A concrete uuid supply. -/
def exUuids : Nat → String := fun _ => "u"

/-- The output table `make_event_forecasts` produces on the concrete data:
one row, for the single qualifying event 7. -/
def exRows : List ResultRow := [⟨7, 60, 1, 0, 1, "u"⟩]

/-- The upload trace of the concrete run: one chart image. -/
def exUps : List S3Op := [S3Op.uploadImage "forecast-images" "u.png"]

/-- A concrete `Forecast` object with two order rows, for evaluating
`get_forecast` directly (the threshold is only checked by the loop). -/
def c3F : Forecast := ⟨1, [⟨0, 1, 1⟩, ⟨1, 1, 1⟩], "ex", "k"⟩

/-- Event table for `c3F`: start day 5, max gross 10. -/
def c3Ed : List EventRow := [⟨1, "ex", 5, 10⟩]

/-- A `Forecast` object whose second order has negative gross — a refund. -/
def c4F : Forecast := ⟨1, [⟨0, 2, 1⟩, ⟨1, -1, 1⟩], "ex", "key"⟩

/-- Event table for `c4F`: max gross 1. -/
def c4Ed : List EventRow := [⟨1, "ex", 10, 1⟩]

end LambdaFunc

namespace LambdaFunc

/-- `Forecast.__init__` stores its arguments unchanged. -/
theorem Forecast.init_spec (ed : List EventRow) (eid : Nat) (eo : List OrderRow)
    (key : String) (f : Forecast) (h : Forecast.init ed eid eo key = some f) :
    f.event_id = eid ∧ f.event_orders = eo ∧ f.img_key = key := by
  unfold Forecast.init at h
  cases hh : (ed.filter (fun e => e.event_id == eid)).head? with
  | none => rw [hh] at h; cases h
  | some e =>
    rw [hh] at h
    cases h
    exact ⟨rfl, rfl, rfl⟩

theorem cumsumAux_length (l : List Rat) : ∀ acc, (cumsumAux acc l).length = l.length := by
  induction l with
  | nil => intro acc; rfl
  | cons x xs ih => intro acc; simp [cumsumAux, ih]

theorem cumsum_length (l : List Rat) : (cumsum l).length = l.length :=
  cumsumAux_length l 0

theorem insertSorted_ne_nil (x : Int) (l : List Int) : insertSorted x l ≠ [] := by
  cases l with
  | nil => simp [insertSorted]
  | cons y ys =>
    unfold insertSorted
    split
    · simp
    · split <;> simp

theorem sortedUnique_ne_nil (l : List Int) (h : l ≠ []) : sortedUnique l ≠ [] := by
  cases l with
  | nil => exact absurd rfl h
  | cons x xs => exact insertSorted_ne_nil x (xs.foldr insertSorted [])

/-- A successful `make_future_dataframe` yields a nonempty frame. -/
theorem make_future_dataframe_ne_nil (history : List Int) (periods : Int)
    (l : List Int) (h : make_future_dataframe history periods = some l) : l ≠ [] := by
  unfold make_future_dataframe at h
  split at h
  · cases h
  · cases hh : (sortedUnique history).getLast? with
    | none => rw [hh] at h; cases h
    | some last =>
      rw [hh] at h
      cases h
      intro hnil
      have hs : sortedUnique history = [] := (List.append_eq_nil.mp hnil).1
      rw [hs] at hh
      cases hh

/-- Rows of `new_row` carry the object's event id and image key. -/
theorem Forecast.mem_new_row (f : Forecast) (fc : List PredRow) (r : ResultRow)
    (h : r ∈ f.new_row fc) : r.event_id = f.event_id ∧ r.img_key = f.img_key := by
  unfold Forecast.new_row at h
  cases hg : fc.getLast? with
  | none => rw [hg] at h; cases h
  | some p =>
    rw [hg] at h
    cases h with
    | head => exact ⟨rfl, rfl⟩
    | tail _ hmem => cases hmem

/-- On a nonempty forecast frame, `new_row` is exactly the last row with the
six output columns. -/
theorem Forecast.new_row_of_ne_nil (f : Forecast) (fc : List PredRow) (h : fc ≠ []) :
    ∃ p, fc.getLast? = some p ∧
      f.new_row fc = [⟨f.event_id, p.ds, p.yhat, p.yhat_lower, p.yhat_upper, f.img_key⟩] := by
  cases hg : fc.getLast? with
  | none => exact absurd (List.getLast?_eq_none_iff.mp hg) h
  | some p => exact ⟨p, rfl, by unfold Forecast.new_row; rw [hg]⟩

/-- A successful `get_forecast` returns a nonempty forecast frame together
with the upload of the chart under the object's image key plus `.png`. -/
theorem Forecast.get_forecast_spec (ed : List EventRow) (model : ProphetModel)
    (f : Forecast) (fcop : List PredRow × S3Op)
    (h : f.get_forecast ed model = some fcop) :
    fcop.1 ≠ [] ∧
      fcop.2 = S3Op.uploadImage FORECAST_IMG_BUCKET_NAME (f.img_key ++ ".png") := by
  unfold Forecast.get_forecast at h
  cases h1 : f.get_percentage_total_gross_cumsum_max_total_gross ed with
  | none => rw [h1] at h; cases h
  | some ys =>
    simp only [h1] at h
    cases h2 : f.days_to_event_since_last_order ed with
    | none => simp only [h2] at h; cases h
    | some days =>
      simp only [h2] at h
      cases h3 : make_future_dataframe
          ((buildTrain f.event_orders
            (cumsum (f.event_orders.map (fun o => o.total_gross))) ys).map
              (fun t => t.ds)) days with
      | none => simp only [h3] at h; cases h
      | some future_ds =>
        simp only [h3] at h
        cases h
        refine ⟨?_, rfl⟩
        have hne := make_future_dataframe_ne_nil _ _ _ h3
        simp only [prophet_predict, ne_eq, List.map_eq_nil_iff]
        intro hcon
        exact hne hcon

end LambdaFunc

namespace LambdaFunc

/-- The loop of `make_event_forecasts` refines `runEvents`: the global
frame passes through unchanged and the accumulators collect what
`runEvents` produces. -/
theorem make_event_forecasts_loop_eq (od : List OrderRow) (ed : List EventRow)
    (model : ProphetModel) (uuids : Nat → String) :
    ∀ (es : List Nat) (acc : List ResultRow) (ups : List S3Op) (k : Nat),
      make_event_forecasts_loop ed model uuids es od acc ups k =
        (runEvents od ed model uuids es k).map (fun p => (od, acc ++ p.1, ups ++ p.2)) := by
  intro es
  induction es with
  | nil =>
    intro acc ups k
    simp [make_event_forecasts_loop, runEvents]
  | cons eid rest ih =>
    intro acc ups k
    simp only [make_event_forecasts_loop, runEvents]
    by_cases hlt : (od.filter (fun o => o.event_id == eid)).length < THRESHOLD_ORDERS
    · simp only [if_pos hlt]
      exact ih acc ups k
    · simp only [if_neg hlt]
      cases hinit : Forecast.init ed eid (od.filter (fun o => o.event_id == eid)) (uuids k) with
      | none => simp only [hinit]; rfl
      | some f =>
        simp only [hinit]
        cases hfc : f.get_forecast ed model with
        | none => simp only [hfc]; rfl
        | some fcop =>
          simp only [hfc]
          rw [ih]
          cases hrest : runEvents od ed model uuids rest (k + 1) with
          | none => simp only [hrest]; rfl
          | some p => simp only [hrest, Option.map_some']; simp [List.append_assoc]

/-- `make_event_forecasts` in terms of `runEvents`. -/
theorem make_event_forecasts_eq (od : List OrderRow) (ed : List EventRow)
    (model : ProphetModel) (uuids : Nat → String) :
    make_event_forecasts od ed model uuids =
      (runEvents od ed model uuids (uniqueFirst (od.map (fun o => o.event_id))) 0).map
        (fun p => (od, p.1, p.2)) := by
  rw [make_event_forecasts, make_event_forecasts_loop_eq]
  rfl

theorem mem_uniqueAux (l : List Nat) : ∀ (seen : List Nat) (x : Nat),
    x ∈ uniqueAux seen l ↔ (x ∈ l ∧ x ∉ seen) := by
  induction l with
  | nil => intro seen x; simp [uniqueAux]
  | cons y ys ih =>
    intro seen x
    unfold uniqueAux
    by_cases hy : y ∈ seen
    · rw [if_pos hy, ih]
      constructor
      · rintro ⟨hx, hns⟩; exact ⟨List.mem_cons_of_mem y hx, hns⟩
      · rintro ⟨hx, hns⟩
        rcases List.mem_cons.mp hx with rfl | hx
        · exact absurd hy hns
        · exact ⟨hx, hns⟩
    · rw [if_neg hy]
      rw [List.mem_cons, ih]
      constructor
      · rintro (rfl | ⟨hx, hns⟩)
        · exact ⟨List.mem_cons_self x ys, hy⟩
        · refine ⟨List.mem_cons_of_mem y hx, fun hc => hns (List.mem_cons_of_mem y hc)⟩
      · rintro ⟨hx, hns⟩
        rcases List.mem_cons.mp hx with rfl | hx
        · exact Or.inl rfl
        · by_cases hxy : x = y
          · exact Or.inl hxy
          · exact Or.inr ⟨hx, fun hc => by
              rcases List.mem_cons.mp hc with h | h
              · exact hxy h
              · exact hns h⟩

theorem mem_uniqueFirst (l : List Nat) (x : Nat) : x ∈ uniqueFirst l ↔ x ∈ l := by
  rw [uniqueFirst, mem_uniqueAux]
  simp

theorem uniqueAux_nodup (l : List Nat) : ∀ seen : List Nat, (uniqueAux seen l).Nodup := by
  induction l with
  | nil => intro seen; simp [uniqueAux]
  | cons y ys ih =>
    intro seen
    unfold uniqueAux
    by_cases hy : y ∈ seen
    · rw [if_pos hy]; exact ih seen
    · rw [if_neg hy]
      refine List.nodup_cons.mpr ⟨fun hc => ?_, ih (y :: seen)⟩
      exact ((mem_uniqueAux ys (y :: seen) y).mp hc).2 (List.mem_cons_self y seen)

theorem uniqueFirst_nodup (l : List Nat) : (uniqueFirst l).Nodup :=
  uniqueAux_nodup l []

/-- An event id whose order count reaches the (positive) threshold occurs in
the order table's id column. -/
theorem mem_ids_of_threshold (od : List OrderRow) (eid : Nat)
    (hq : THRESHOLD_ORDERS ≤ (od.filter (fun o => o.event_id == eid)).length) :
    eid ∈ od.map (fun o => o.event_id) := by
  have hpos : 0 < (od.filter (fun o => o.event_id == eid)).length :=
    lt_of_lt_of_le (by norm_num [THRESHOLD_ORDERS]) hq
  obtain ⟨o, ho⟩ := List.exists_mem_of_length_pos hpos
  have hmem := List.mem_filter.mp ho
  have : o.event_id = eid := by simpa using hmem.2
  exact this ▸ List.mem_map_of_mem (fun o => o.event_id) hmem.1

end LambdaFunc

namespace LambdaFunc

/-- Per-run facts about `runEvents`: every produced row belongs to a listed
event id whose order count reaches the threshold and carries an image key
drawn from the uuid supply at or after position `k`; the upload trace is in
lockstep with the rows (each row's key plus `.png`, into the image bucket);
and there is exactly one row per listed qualifying event id. -/
theorem runEvents_spec (od : List OrderRow) (ed : List EventRow)
    (model : ProphetModel) (uuids : Nat → String) :
    ∀ (es : List Nat) (k : Nat) (rs : List ResultRow) (us : List S3Op),
      runEvents od ed model uuids es k = some (rs, us) →
      (∀ r ∈ rs, r.event_id ∈ es ∧
        THRESHOLD_ORDERS ≤ (od.filter (fun o => o.event_id == r.event_id)).length ∧
        ∃ j, k ≤ j ∧ r.img_key = uuids j) ∧
      us = rs.map (fun r => S3Op.uploadImage FORECAST_IMG_BUCKET_NAME (r.img_key ++ ".png")) ∧
      rs.length = (es.filter
        (fun e => THRESHOLD_ORDERS ≤ (od.filter (fun o => o.event_id == e)).length)).length := by
  intro es
  induction es with
  | nil =>
    intro k rs us h
    simp only [runEvents, Option.some.injEq, Prod.mk.injEq] at h
    obtain ⟨hrs, hus⟩ := h
    subst hrs; subst hus
    simp
  | cons eid rest ih =>
    intro k rs us h
    simp only [runEvents] at h
    by_cases hlt : (od.filter (fun o => o.event_id == eid)).length < THRESHOLD_ORDERS
    · rw [if_pos hlt] at h
      obtain ⟨hmem, hups, hlen⟩ := ih k rs us h
      refine ⟨fun r hr => ?_, hups, ?_⟩
      · obtain ⟨h1, h2, h3⟩ := hmem r hr
        exact ⟨List.mem_cons_of_mem _ h1, h2, h3⟩
      · rw [hlen, List.filter_cons_of_neg]
        simp [Nat.not_le, hlt]
    · rw [if_neg hlt] at h
      have hq : THRESHOLD_ORDERS ≤ (od.filter (fun o => o.event_id == eid)).length :=
        Nat.le_of_not_lt hlt
      cases hinit : Forecast.init ed eid (od.filter (fun o => o.event_id == eid)) (uuids k) with
      | none => simp only [hinit] at h; cases h
      | some f =>
        simp only [hinit] at h
        cases hfc : f.get_forecast ed model with
        | none => simp only [hfc] at h; cases h
        | some fcop =>
          simp only [hfc] at h
          cases hrest : runEvents od ed model uuids rest (k + 1) with
          | none => simp only [hrest] at h; cases h
          | some p =>
            simp only [hrest, Option.some.injEq, Prod.mk.injEq] at h
            obtain ⟨hrs, hus⟩ := h
            subst hrs; subst hus
            obtain ⟨hfe, hfo, hfk⟩ := Forecast.init_spec _ _ _ _ _ hinit
            obtain ⟨hfc1, hfc2⟩ := Forecast.get_forecast_spec _ _ _ _ hfc
            obtain ⟨q, hql, hnr⟩ := Forecast.new_row_of_ne_nil f fcop.1 hfc1
            obtain ⟨hmem, hups, hlen⟩ := ih (k + 1) p.1 p.2 (by rw [hrest])
            refine ⟨fun r hr => ?_, ?_, ?_⟩
            · rcases List.mem_append.mp hr with hr1 | hr2
              · obtain ⟨heid, hkey⟩ := Forecast.mem_new_row f fcop.1 r hr1
                refine ⟨?_, ?_, k, le_refl k, ?_⟩
                · rw [heid, hfe]; exact List.mem_cons_self _ _
                · rw [heid, hfe]; exact hq
                · rw [hkey, hfk]
              · obtain ⟨h1, h2, j, hj, hk⟩ := hmem r hr2
                exact ⟨List.mem_cons_of_mem _ h1, h2, j,
                  le_trans (Nat.le_succ k) hj, hk⟩
            · rw [hnr, hfc2, hups]
              simp [hfk]
            · rw [hnr]
              rw [List.filter_cons_of_pos]
              · simp [hlen]
              · simpa using hq

end LambdaFunc

namespace LambdaFunc

/-- With an injective uuid supply, no two output rows share an image key. -/
theorem runEvents_keys_nodup (od : List OrderRow) (ed : List EventRow)
    (model : ProphetModel) (uuids : Nat → String)
    (hinj : Function.Injective uuids) :
    ∀ (es : List Nat) (k : Nat) (rs : List ResultRow) (us : List S3Op),
      runEvents od ed model uuids es k = some (rs, us) →
      (rs.map (fun r => r.img_key)).Nodup := by
  intro es
  induction es with
  | nil =>
    intro k rs us h
    simp only [runEvents, Option.some.injEq, Prod.mk.injEq] at h
    obtain ⟨hrs, hus⟩ := h
    subst hrs
    simp
  | cons eid rest ih =>
    intro k rs us h
    simp only [runEvents] at h
    by_cases hlt : (od.filter (fun o => o.event_id == eid)).length < THRESHOLD_ORDERS
    · rw [if_pos hlt] at h
      exact ih k rs us h
    · rw [if_neg hlt] at h
      cases hinit : Forecast.init ed eid (od.filter (fun o => o.event_id == eid)) (uuids k) with
      | none => simp only [hinit] at h; cases h
      | some f =>
        simp only [hinit] at h
        cases hfc : f.get_forecast ed model with
        | none => simp only [hfc] at h; cases h
        | some fcop =>
          simp only [hfc] at h
          cases hrest : runEvents od ed model uuids rest (k + 1) with
          | none => simp only [hrest] at h; cases h
          | some p =>
            simp only [hrest, Option.some.injEq, Prod.mk.injEq] at h
            obtain ⟨hrs, hus⟩ := h
            subst hrs
            obtain ⟨hfe, hfo, hfk⟩ := Forecast.init_spec _ _ _ _ _ hinit
            obtain ⟨hfc1, _⟩ := Forecast.get_forecast_spec _ _ _ _ hfc
            obtain ⟨q, hql, hnr⟩ := Forecast.new_row_of_ne_nil f fcop.1 hfc1
            rw [hnr]
            simp only [List.cons_append, List.nil_append, List.map_cons, List.nodup_cons]
            refine ⟨fun hc => ?_, ih (k + 1) p.1 p.2 (by rw [hrest])⟩
            obtain ⟨r, hr, hkey⟩ := List.mem_map.mp hc
            obtain ⟨hspec, -, -⟩ := runEvents_spec od ed model uuids rest (k + 1) p.1 p.2
              (by rw [hrest])
            obtain ⟨-, -, j, hj, hkj⟩ := hspec r hr
            rw [hkj, hfk] at hkey
            have : j = k := hinj hkey
            omega

/-- The rows `runEvents` yields for one listed qualifying event id: exactly
one, built from the last row of the forecast that `eventForecastOf` computes
for it. -/
theorem runEvents_filter_eq (od : List OrderRow) (ed : List EventRow)
    (model : ProphetModel) (uuids : Nat → String) :
    ∀ (es : List Nat) (k : Nat) (rs : List ResultRow) (us : List S3Op),
      runEvents od ed model uuids es k = some (rs, us) →
      es.Nodup → ∀ eid ∈ es,
      THRESHOLD_ORDERS ≤ (od.filter (fun o => o.event_id == eid)).length →
      ∃ key fc p, eventForecastOf od ed model eid key = some fc ∧
        fc.getLast? = some p ∧
        rs.filter (fun r => r.event_id == eid) =
          [⟨eid, p.ds, p.yhat, p.yhat_lower, p.yhat_upper, key⟩] := by
  intro es
  induction es with
  | nil =>
    intro k rs us h hnd eid hmem
    cases hmem
  | cons e rest ih =>
    intro k rs us h hnd eid hmem hq
    simp only [runEvents] at h
    rcases List.mem_cons.mp hmem with rfl | hmem'
    · rw [if_neg (Nat.not_lt.mpr hq)] at h
      cases hinit : Forecast.init ed eid (od.filter (fun o => o.event_id == eid)) (uuids k) with
      | none => simp only [hinit] at h; cases h
      | some f =>
        simp only [hinit] at h
        cases hfc : f.get_forecast ed model with
        | none => simp only [hfc] at h; cases h
        | some fcop =>
          simp only [hfc] at h
          cases hrest : runEvents od ed model uuids rest (k + 1) with
          | none => simp only [hrest] at h; cases h
          | some p =>
            simp only [hrest, Option.some.injEq, Prod.mk.injEq] at h
            obtain ⟨hrs, hus⟩ := h
            subst hrs
            obtain ⟨hfe, hfo, hfk⟩ := Forecast.init_spec _ _ _ _ _ hinit
            obtain ⟨hfc1, -⟩ := Forecast.get_forecast_spec _ _ _ _ hfc
            obtain ⟨q, hql, hnr⟩ := Forecast.new_row_of_ne_nil f fcop.1 hfc1
            refine ⟨uuids k, fcop.1, q, ?_, hql, ?_⟩
            · unfold eventForecastOf
              rw [hinit]
              simp only [hfc]
            · rw [hnr, List.cons_append, List.nil_append, List.filter_cons_of_pos]
              · have hrest_nil : p.1.filter (fun r => r.event_id == eid) = [] := by
                  rw [List.filter_eq_nil_iff]
                  intro r hr
                  obtain ⟨hspec, -, -⟩ := runEvents_spec od ed model uuids rest (k + 1)
                    p.1 p.2 (by rw [hrest])
                  obtain ⟨hrmem, -, -⟩ := hspec r hr
                  have hnotin : eid ∉ rest := (List.nodup_cons.mp hnd).1
                  simp only [beq_iff_eq]
                  intro hre
                  exact hnotin (hre ▸ hrmem)
                rw [hrest_nil, hfe, hfk]
              · simp [hfe]
    · have hnotin : e ∉ rest := (List.nodup_cons.mp hnd).1
      have hne : e ≠ eid := fun hc => hnotin (hc ▸ hmem')
      by_cases hlt : (od.filter (fun o => o.event_id == e)).length < THRESHOLD_ORDERS
      · rw [if_pos hlt] at h
        exact ih k rs us h (List.Nodup.of_cons hnd) eid hmem' hq
      · rw [if_neg hlt] at h
        cases hinit : Forecast.init ed e (od.filter (fun o => o.event_id == e)) (uuids k) with
        | none => simp only [hinit] at h; cases h
        | some f =>
          simp only [hinit] at h
          cases hfc : f.get_forecast ed model with
          | none => simp only [hfc] at h; cases h
          | some fcop =>
            simp only [hfc] at h
            cases hrest : runEvents od ed model uuids rest (k + 1) with
            | none => simp only [hrest] at h; cases h
            | some p =>
              simp only [hrest, Option.some.injEq, Prod.mk.injEq] at h
              obtain ⟨hrs, hus⟩ := h
              subst hrs
              obtain ⟨hfe, hfo, hfk⟩ := Forecast.init_spec _ _ _ _ _ hinit
              obtain ⟨key, fc, q, h1, h2, h3⟩ := ih (k + 1) p.1 p.2 (by rw [hrest])
                (List.Nodup.of_cons hnd) eid hmem' hq
              refine ⟨key, fc, q, h1, h2, ?_⟩
              rw [List.filter_append, h3]
              have hleft : (f.new_row fcop.1).filter (fun r => r.event_id == eid) = [] := by
                rw [List.filter_eq_nil_iff]
                intro r hr
                obtain ⟨hre, -⟩ := Forecast.mem_new_row f fcop.1 r hr
                simp only [beq_iff_eq]
                rw [hre, hfe]
                exact hne
              rw [hleft, List.nil_append]

end LambdaFunc

namespace LambdaFunc

/-- C1: for every event whose number of order rows is strictly below
`THRESHOLD_ORDERS`, a (completed) `make_event_forecasts` run produces no
result row for that event; the event is not among the processed
(qualifying) events, and exactly one chart is uploaded per qualifying
event, so none is attributable to it. -/
theorem below_threshold_produces_no_result_row (od : List OrderRow)
    (ed : List EventRow) (model : ProphetModel) (uuids : Nat → String)
    (od' : List OrderRow) (rows : List ResultRow) (ups : List S3Op) (eid : Nat)
    (hrun : make_event_forecasts od ed model uuids = some (od', rows, ups))
    (hlt : (od.filter (fun o => o.event_id == eid)).length < THRESHOLD_ORDERS) :
    rows.filter (fun r => r.event_id == eid) = [] ∧
      eid ∉ qualifying_event_ids od ∧
      ups.length = (qualifying_event_ids od).length := by
  rw [make_event_forecasts_eq] at hrun
  cases hr : runEvents od ed model uuids (uniqueFirst (od.map (fun o => o.event_id))) 0 with
  | none => rw [hr] at hrun; cases hrun
  | some p =>
    rw [hr, Option.map_some'] at hrun
    cases hrun
    obtain ⟨hmem, hups, hlen⟩ := runEvents_spec od ed model uuids _ 0 p.1 p.2 (by rw [hr])
    refine ⟨?_, ?_, ?_⟩
    · rw [List.filter_eq_nil_iff]
      intro r hrr
      obtain ⟨-, hth, -⟩ := hmem r hrr
      simp only [beq_iff_eq]
      intro hre
      rw [hre] at hth
      exact absurd hth (Nat.not_le.mpr hlt)
    · intro hc
      have := (List.mem_filter.mp hc).2
      simp only [decide_eq_true_eq] at this
      exact absurd this (Nat.not_le.mpr hlt)
    · rw [hups, List.length_map, hlen]
      rfl

/-- C2: for every qualifying event (order count at least the threshold), a
completed run's output table has exactly one row for that event, and that
row consists of the last row of the event's forecast under the columns
`event_id`, `ds`, `yhat`, `yhat_lower`, `yhat_upper`, `img_key`. -/
theorem one_row_per_qualifying_event (od : List OrderRow) (ed : List EventRow)
    (model : ProphetModel) (uuids : Nat → String)
    (od' : List OrderRow) (rows : List ResultRow) (ups : List S3Op) (eid : Nat)
    (hrun : make_event_forecasts od ed model uuids = some (od', rows, ups))
    (hq : THRESHOLD_ORDERS ≤ (od.filter (fun o => o.event_id == eid)).length) :
    ∃ key fc p, eventForecastOf od ed model eid key = some fc ∧
      fc.getLast? = some p ∧
      rows.filter (fun r => r.event_id == eid) =
        [⟨eid, p.ds, p.yhat, p.yhat_lower, p.yhat_upper, key⟩] := by
  rw [make_event_forecasts_eq] at hrun
  cases hr : runEvents od ed model uuids (uniqueFirst (od.map (fun o => o.event_id))) 0 with
  | none => rw [hr] at hrun; cases hrun
  | some p =>
    rw [hr, Option.map_some'] at hrun
    cases hrun
    exact runEvents_filter_eq od ed model uuids _ 0 p.1 p.2 (by rw [hr])
      (uniqueFirst_nodup _)
      eid ((mem_uniqueFirst _ eid).mpr (mem_ids_of_threshold od eid hq)) hq

/-- C9: in a completed run the upload trace is in lockstep with the output
table — the i-th uploaded object's name is exactly the i-th summary row's
`img_key` with a `.png` suffix, into the image bucket — so each summary row
references its own event's chart; and when the uuid supply is injective
(fresh UUID per event) no two rows share a key. -/
theorem summary_rows_reference_their_own_charts (od : List OrderRow)
    (ed : List EventRow) (model : ProphetModel) (uuids : Nat → String)
    (od' : List OrderRow) (rows : List ResultRow) (ups : List S3Op)
    (hrun : make_event_forecasts od ed model uuids = some (od', rows, ups)) :
    ups = rows.map (fun r =>
      S3Op.uploadImage FORECAST_IMG_BUCKET_NAME (r.img_key ++ ".png")) ∧
    (Function.Injective uuids → (rows.map (fun r => r.img_key)).Nodup) := by
  rw [make_event_forecasts_eq] at hrun
  cases hr : runEvents od ed model uuids (uniqueFirst (od.map (fun o => o.event_id))) 0 with
  | none => rw [hr] at hrun; cases hrun
  | some p =>
    rw [hr, Option.map_some'] at hrun
    cases hrun
    obtain ⟨-, hups, -⟩ := runEvents_spec od ed model uuids _ 0 p.1 p.2 (by rw [hr])
    exact ⟨hups, fun hinj => runEvents_keys_nodup od ed model uuids hinj _ 0 p.1 p.2
      (by rw [hr])⟩

/-- C10: a completed `make_event_forecasts` run leaves the global
`order_data` table unchanged: each event's rows are copied into the
per-event frame before the derived columns are added, so the run returns
the order table exactly as it received it. -/
theorem make_event_forecasts_preserves_order_data (od : List OrderRow)
    (ed : List EventRow) (model : ProphetModel) (uuids : Nat → String)
    (od' : List OrderRow) (rows : List ResultRow) (ups : List S3Op)
    (hrun : make_event_forecasts od ed model uuids = some (od', rows, ups)) :
    od' = od := by
  rw [make_event_forecasts_eq] at hrun
  cases hr : runEvents od ed model uuids (uniqueFirst (od.map (fun o => o.event_id))) 0 with
  | none => rw [hr] at hrun; cases hrun
  | some p =>
    rw [hr, Option.map_some'] at hrun
    cases hrun
    rfl

/-- C8: on an invocation whose forecasting step completes, `lambda_handler`
performs, in order: first the deletion of all prior chart images from the
image bucket, then the forecast computation with one chart upload per
processed (qualifying) event, then the single summary-CSV overwrite as the
last effect, and finally returns the status message. -/
theorem lambda_handler_effect_order (od : List OrderRow) (ed : List EventRow)
    (model : ProphetModel) (uuids : Nat → String)
    (od' : List OrderRow) (rows : List ResultRow) (ups : List S3Op)
    (hrun : make_event_forecasts od ed model uuids = some (od', rows, ups)) :
    ∃ trace resp, lambda_handler od ed model uuids = some (trace, resp) ∧
      trace = clean_bucket_with_figures :: ups ++ [upload_to_s3] ∧
      trace.head? = some (S3Op.deleteAllImages FORECAST_IMG_BUCKET_NAME) ∧
      trace.getLast? = some (S3Op.writeCsv (BUCKET_NAME ++ "/forecast.csv")) ∧
      (∀ op ∈ ups, ∃ n, op = S3Op.uploadImage FORECAST_IMG_BUCKET_NAME n) ∧
      ups.length = (qualifying_event_ids od).length ∧
      resp.message = "Forecast uploaded" := by
  refine ⟨clean_bucket_with_figures :: ups ++ [upload_to_s3], ⟨"Forecast uploaded"⟩,
    ?_, rfl, rfl, ?_, ?_, ?_, rfl⟩
  · rw [lambda_handler, hrun]
  · show ((clean_bucket_with_figures :: ups) ++ [upload_to_s3]).getLast? = _
    rw [List.getLast?_concat]
    rfl
  · intro op hop
    rw [make_event_forecasts_eq] at hrun
    cases hr : runEvents od ed model uuids (uniqueFirst (od.map (fun o => o.event_id))) 0 with
    | none => rw [hr] at hrun; cases hrun
    | some p =>
      rw [hr, Option.map_some'] at hrun
      cases hrun
      obtain ⟨-, hups, -⟩ := runEvents_spec od ed model uuids _ 0 p.1 p.2 (by rw [hr])
      rw [hups] at hop
      obtain ⟨r, -, hrop⟩ := List.mem_map.mp hop
      exact ⟨r.img_key ++ ".png", hrop.symm⟩
  · rw [make_event_forecasts_eq] at hrun
    cases hr : runEvents od ed model uuids (uniqueFirst (od.map (fun o => o.event_id))) 0 with
    | none => rw [hr] at hrun; cases hrun
    | some p =>
      rw [hr, Option.map_some'] at hrun
      cases hrun
      obtain ⟨-, hups, hlen⟩ := runEvents_spec od ed model uuids _ 0 p.1 p.2 (by rw [hr])
      rw [hups, List.length_map, hlen]
      rfl

end LambdaFunc

namespace LambdaFunc

/-- When every summand is non-negative, running cumulative sums are
non-decreasing. -/
theorem cumsumAux_chain (l : List Rat) : ∀ acc, (∀ x ∈ l, 0 ≤ x) →
    List.Chain' (fun a b => a ≤ b) (cumsumAux acc l) := by
  induction l with
  | nil => intro acc _; simp [cumsumAux]
  | cons x xs ih =>
    intro acc hx
    rw [cumsumAux, List.chain'_cons']
    refine ⟨?_, ih (acc + x) (fun y hy => hx y (List.mem_cons_of_mem x hy))⟩
    intro b hb
    cases xs with
    | nil => simp [cumsumAux] at hb
    | cons y ys =>
      simp only [cumsumAux, List.head?_cons, Option.mem_def, Option.some.injEq] at hb
      have hy : 0 ≤ y := hx y (by simp)
      rw [← hb]
      linarith

/-- When every summand is non-negative, every running cumulative sum lies
between the accumulator and the accumulator plus the total. -/
theorem cumsumAux_bounds (l : List Rat) : ∀ acc, (∀ x ∈ l, 0 ≤ x) →
    ∀ c ∈ cumsumAux acc l, acc ≤ c ∧ c ≤ acc + l.sum := by
  induction l with
  | nil => intro acc _ c hc; simp [cumsumAux] at hc
  | cons x xs ih =>
    intro acc hx c hc
    have hx0 : 0 ≤ x := hx x (by simp)
    rw [cumsumAux] at hc
    rcases List.mem_cons.mp hc with rfl | hc'
    · have hs : 0 ≤ xs.sum := List.sum_nonneg (fun y hy => hx y (by simp [hy]))
      rw [List.sum_cons]
      constructor <;> linarith
    · obtain ⟨h1, h2⟩ := ih (acc + x) (fun y hy => hx y (by simp [hy])) c hc'
      rw [List.sum_cons]
      constructor <;> linarith

/-- C4 counterexample: on an event with a refund order (a negative gross
amount), the ratio feature the Feature Builder computes is not
monotonically non-decreasing: `c4F` has grosses `[2, -1]` and max-gross 1,
giving the ratio series `[2, 1]`. -/
theorem ratio_feature_not_always_monotone :
    c4F.get_percentage_total_gross_cumsum_max_total_gross c4Ed = some [2, 1] ∧
    ¬ List.Chain' (fun a b : Rat => a ≤ b) [2, 1] := by
  constructor
  · unfold Forecast.get_percentage_total_gross_cumsum_max_total_gross
    norm_num [c4F, c4Ed, cumsum, cumsumAux]
  · intro hc
    rw [List.chain'_cons] at hc
    exact absurd hc.1 (by norm_num)

/-- C4 (amended): for every event all of whose order gross amounts are
non-negative and whose max-gross is positive, the ratio feature computed by
the Feature Builder is monotonically non-decreasing along the event's order
series. -/
theorem ratio_feature_monotone_of_nonneg (ed : List EventRow) (f : Forecast)
    (e : EventRow)
    (he : (ed.filter (fun x => x.event_id == f.event_id)).head? = some e)
    (hpos : 0 < e.max_total_gross)
    (hnn : ∀ o ∈ f.event_orders, 0 ≤ o.total_gross) :
    ∃ rs, f.get_percentage_total_gross_cumsum_max_total_gross ed = some rs ∧
      List.Chain' (fun a b => a ≤ b) rs := by
  refine ⟨(cumsum (f.event_orders.map (fun o => o.total_gross))).map
    (fun c => c / e.max_total_gross), ?_, ?_⟩
  · unfold Forecast.get_percentage_total_gross_cumsum_max_total_gross
    rw [he]
  · have hc : List.Chain' (fun a b => a ≤ b)
        (cumsum (f.event_orders.map (fun o => o.total_gross))) := by
      refine cumsumAux_chain _ 0 (fun x hx => ?_)
      obtain ⟨o, ho, rfl⟩ := List.mem_map.mp hx
      exact hnn o ho
    exact List.chain'_map_of_chain' _ (fun a b hab => (div_le_div_iff_of_pos_right hpos).mpr hab) hc

end LambdaFunc

namespace LambdaFunc

/-- C5: for every well-formed input — non-negative order gross amounts with
a strictly positive max-gross at least the event's total gross — every
value of the ratio feature computed by the Feature Builder lies in
`[0, 1]`. -/
theorem ratio_feature_in_unit_interval (ed : List EventRow) (f : Forecast)
    (e : EventRow)
    (he : (ed.filter (fun x => x.event_id == f.event_id)).head? = some e)
    (hpos : 0 < e.max_total_gross)
    (hnn : ∀ o ∈ f.event_orders, 0 ≤ o.total_gross)
    (hsum : (f.event_orders.map (fun o => o.total_gross)).sum ≤ e.max_total_gross) :
    ∃ rs, f.get_percentage_total_gross_cumsum_max_total_gross ed = some rs ∧
      ∀ r ∈ rs, 0 ≤ r ∧ r ≤ 1 := by
  refine ⟨(cumsum (f.event_orders.map (fun o => o.total_gross))).map
    (fun c => c / e.max_total_gross), ?_, ?_⟩
  · unfold Forecast.get_percentage_total_gross_cumsum_max_total_gross
    rw [he]
  · intro r hr
    obtain ⟨c, hc, rfl⟩ := List.mem_map.mp hr
    have hx : ∀ x ∈ f.event_orders.map (fun o => o.total_gross), 0 ≤ x := by
      intro x hx
      obtain ⟨o, ho, rfl⟩ := List.mem_map.mp hx
      exact hnn o ho
    obtain ⟨h1, h2⟩ := cumsumAux_bounds _ 0 hx c hc
    rw [zero_add] at h2
    constructor
    · exact div_nonneg h1 (le_of_lt hpos)
    · rw [div_le_one hpos]
      exact le_trans h2 hsum

/-- C6: the Horizon Calculator returns the day count from the event's last
order to the event's start date, and that count is non-negative whenever
the start date is on or after the last order date. -/
theorem days_to_event_correct (ed : List EventRow) (f : Forecast)
    (e : EventRow) (o : OrderRow)
    (he : (ed.filter (fun x => x.event_id == f.event_id)).head? = some e)
    (ho : f.event_orders.getLast? = some o) :
    f.days_to_event_since_last_order ed = some (e.start_date - o.ds) ∧
      (o.ds ≤ e.start_date → 0 ≤ e.start_date - o.ds) := by
  constructor
  · unfold Forecast.days_to_event_since_last_order
    rw [he, ho]
  · intro h
    omega

/-- C3 (evaluation): the model the script constructs for every event uses
growth mode `"linear"` — not the capped mode `"logistic"` — with yearly
seasonality disabled, even though the engineered frame and the future
frame both carry the capacity-cap column; on the concrete event `c3F`, the
time index is extended from the two history days `[0, 1]` by the computed
horizon 4 up to the event start, and the prediction yields point plus
lower/upper interval values per future day. -/
theorem prophet_growth_is_linear_despite_cap :
    prophetArgs.growth = "linear" ∧ prophetArgs.growth ≠ "logistic" ∧
    prophetArgs.yearly_seasonality = false ∧
    c3F.days_to_event_since_last_order c3Ed = some 4 ∧
    ((c3F.get_percentage_total_gross_cumsum_max_total_gross c3Ed).map
      (fun ys => (buildTrain c3F.event_orders
        (cumsum (c3F.event_orders.map (fun o => o.total_gross))) ys).map
          (fun t => t.cap))) = some [MAX_CAP, MAX_CAP] ∧
    c3F.get_forecast c3Ed exModel = some
      ([⟨0, MAX_CAP, 0, MAX_CAP⟩, ⟨1, MAX_CAP, 0, MAX_CAP⟩, ⟨2, MAX_CAP, 0, MAX_CAP⟩,
        ⟨3, MAX_CAP, 0, MAX_CAP⟩, ⟨4, MAX_CAP, 0, MAX_CAP⟩, ⟨5, MAX_CAP, 0, MAX_CAP⟩],
       S3Op.uploadImage FORECAST_IMG_BUCKET_NAME ("k" ++ ".png")) := by
  exact ⟨rfl, by decide, rfl, by decide, by decide, by decide⟩

end LambdaFunc

namespace LambdaFunc

/-- The concrete run used by the witnesses: on `exOd`/`exEd` the
orchestrator produces exactly the row and upload of event 7. -/
theorem exRun : make_event_forecasts exOd exEd exModel exUuids =
    some (exOd, exRows, exUps) := by decide

/-- C1 witness: event 8 has one order row, below the threshold, and the
concrete run has no row for it. -/
theorem below_threshold_produces_no_result_row_witness :
    ((exOd.filter (fun o => o.event_id == 8)).length < THRESHOLD_ORDERS) ∧
    (exRows.filter (fun r => r.event_id == 8) = [] ∧
      8 ∉ qualifying_event_ids exOd ∧
      exUps.length = (qualifying_event_ids exOd).length) :=
  ⟨by decide, below_threshold_produces_no_result_row exOd exEd exModel exUuids
    exOd exRows exUps 8 exRun (by decide)⟩

/-- C2 witness: event 7 qualifies with 50 order rows and the concrete run's
table has exactly its last-forecast row. -/
theorem one_row_per_qualifying_event_witness :
    (THRESHOLD_ORDERS ≤ (exOd.filter (fun o => o.event_id == 7)).length) ∧
    (∃ key fc p, eventForecastOf exOd exEd exModel 7 key = some fc ∧
      fc.getLast? = some p ∧
      exRows.filter (fun r => r.event_id == 7) =
        [⟨7, p.ds, p.yhat, p.yhat_lower, p.yhat_upper, key⟩]) :=
  ⟨by decide, one_row_per_qualifying_event exOd exEd exModel exUuids
    exOd exRows exUps 7 exRun (by decide)⟩

/-- C8 witness: on the concrete run the handler's trace is the cleanup,
then the one upload, then the CSV write, with the status message. -/
theorem lambda_handler_effect_order_witness :
    ∃ trace resp, lambda_handler exOd exEd exModel exUuids = some (trace, resp) ∧
      trace = clean_bucket_with_figures :: exUps ++ [upload_to_s3] ∧
      trace.head? = some (S3Op.deleteAllImages FORECAST_IMG_BUCKET_NAME) ∧
      trace.getLast? = some (S3Op.writeCsv (BUCKET_NAME ++ "/forecast.csv")) ∧
      (∀ op ∈ exUps, ∃ n, op = S3Op.uploadImage FORECAST_IMG_BUCKET_NAME n) ∧
      exUps.length = (qualifying_event_ids exOd).length ∧
      resp.message = "Forecast uploaded" :=
  lambda_handler_effect_order exOd exEd exModel exUuids exOd exRows exUps exRun

/-- C9 witness: on the concrete run the upload trace equals the rows' image
keys with `.png`, into the image bucket. -/
theorem summary_rows_reference_their_own_charts_witness :
    exUps = exRows.map (fun r =>
      S3Op.uploadImage FORECAST_IMG_BUCKET_NAME (r.img_key ++ ".png")) ∧
    (Function.Injective exUuids → (exRows.map (fun r => r.img_key)).Nodup) :=
  summary_rows_reference_their_own_charts exOd exEd exModel exUuids
    exOd exRows exUps exRun

/-- C10 witness: the concrete run returns the order table it was given. -/
theorem make_event_forecasts_preserves_order_data_witness :
    make_event_forecasts exOd exEd exModel exUuids = some (exOd, exRows, exUps) ∧
      exOd = exOd :=
  ⟨exRun, make_event_forecasts_preserves_order_data exOd exEd exModel exUuids
    exOd exRows exUps exRun⟩

/-- C4 witness (amended claim): on `c3F` (grosses `[1, 1]`, max-gross 10)
the ratio feature is monotonically non-decreasing. -/
theorem ratio_feature_monotone_of_nonneg_witness :
    ((c3Ed.filter (fun x => x.event_id == c3F.event_id)).head? =
        some ⟨1, "ex", 5, 10⟩) ∧
    (∀ o ∈ c3F.event_orders, 0 ≤ o.total_gross) ∧
    (∃ rs, c3F.get_percentage_total_gross_cumsum_max_total_gross c3Ed = some rs ∧
      List.Chain' (fun a b => a ≤ b) rs) :=
  ⟨by decide, by decide,
    ratio_feature_monotone_of_nonneg c3Ed c3F ⟨1, "ex", 5, 10⟩
      (by decide) (by decide) (by decide)⟩

/-- C5 witness: on `c3F` every ratio value lies in `[0, 1]`. -/
theorem ratio_feature_in_unit_interval_witness :
    ((c3F.event_orders.map (fun o => o.total_gross)).sum ≤
        (10 : Rat)) ∧
    (∃ rs, c3F.get_percentage_total_gross_cumsum_max_total_gross c3Ed = some rs ∧
      ∀ r ∈ rs, 0 ≤ r ∧ r ≤ 1) :=
  ⟨by norm_num [c3F], ratio_feature_in_unit_interval c3Ed c3F ⟨1, "ex", 5, 10⟩
    (by decide) (by decide) (by decide) (by norm_num [c3F])⟩

/-- C6 witness: on `c3F` the horizon is `5 - 1 = 4`, non-negative. -/
theorem days_to_event_correct_witness :
    (c3F.event_orders.getLast? = some ⟨1, 1, 1⟩) ∧
    (c3F.days_to_event_since_last_order c3Ed = some ((5 : Int) - 1) ∧
      ((1 : Int) ≤ 5 → 0 ≤ (5 : Int) - 1)) :=
  ⟨by decide, days_to_event_correct c3Ed c3F ⟨1, "ex", 5, 10⟩ ⟨1, 1, 1⟩
    (by decide) (by decide)⟩

end LambdaFunc
